import Mathlib

/-!
Shallow embedding of doxy-coverage.py (a Doxygen documentation-coverage
reporter) and proofs about its behaviour.

The program reads a Doxygen XML tree: parse_file extracts, from one
compound documentation record, a mapping from symbol identifier to a
documented flag; parse groups those mappings by resolved source-file
path; report sorts the paths by coverage, prints per-path lines with the
undocumented identifiers, accumulates grand totals and returns a numeric
verdict; main maps everything to a process exit code.

Embedding conventions:
- Python dicts become insertion-ordered association lists (`List (k × v)`);
  dict assignment is modelled by `dinsert` (overwrite in place, else
  append), so keys stay unique and ordered exactly as in CPython.
- XML access is modelled by records carrying what the code reads from each
  node: an element-with-text or attribute that may be absent is an
  `Option String`.
- Python 3 `/` on integers is true division; it is embedded as division
  in `ℚ` (floats at these magnitudes are exact enough that integrality
  and order of the values involved coincide with the rational values).
  A Python `ZeroDivisionError` is made explicit: `reportVerdict` returns
  `none` where the code would raise.
- Python string comparison (used by `list.sort`) is lexicographic on code
  points; `pyLe` implements it on `String.data`.  Python `in` on strings
  is substring containment, embedded as `pyIn`.
-/

namespace DoxyCoverage

/-- One record-level symbol table: the Python dict `definitions` mapping
identifier to its documented flag, as an insertion-ordered association
list with unique keys. -/
abbrev Defs := List (String × Bool)

/-- The files table built by `parse`: the Python dict `files` mapping a
resolved source-file path to the list of symbol tables of all records
that resolved to that path. -/
abbrev Files := List (String × List Defs)

/-- One `memberdef` node, carrying exactly what `parse_file` reads from
it.  `kind` and `static` are the attributes of those names (absent
attribute = `none`).  The three `...Nonempty` flags state whether the
corresponding description sub-element has any child content (the
`findall("./%s/")` test).  `definition` and `name` are the texts of the
`definition` and `name` child elements when present.  `id` is the `id`
attribute (always present per the Doxygen schema).  `location` is the
`file` attribute of the `location` child when both are present. -/
structure Member where
  kind : Option String
  static : Option String
  briefNonempty : Bool
  detailedNonempty : Bool
  inbodyNonempty : Bool
  definition : Option String
  name : Option String
  id : String
  location : Option String
deriving DecidableEq

/-- The documentability filter (lines 73-75): a member is skipped iff
its kind attribute is "function" and its static attribute is "yes". -/
def skipB (m : Member) : Bool :=
  m.kind == some "function" && m.static == some "yes"

/-- Documented check (lines 78-84): true when at least one of the brief,
detailed or in-body descriptions is non-empty.  The source breaks out of
the loop at the first hit; only the disjunction is observable. -/
def documentedB (m : Member) : Bool :=
  m.briefNonempty || m.detailedNonempty || m.inbodyNonempty

/-- Identifier resolution (lines 95-100): the definition element's text
if the element is present, else the name element's text, else the id
attribute. -/
def resolveName (m : Member) : String :=
  match m.definition with
  | some s => s
  | none =>
    match m.name with
    | some s => s
    | none => m.id

/-- Python truthiness of the `sourcefile` variable: `None` and the empty
string are falsy (the code tests `if not sourcefile`). -/
def strFalsey : Option String → Bool
  | none => true
  | some s => s == ""

/-- Python dict assignment `d[k] = v` (line 103): overwrite the value in
place if the key is present (keeping its position), else append. -/
def dinsert : Defs → String → Bool → Defs
  | [], k, v => [(k, v)]
  | e :: rest, k, v => if e.1 == k then (k, v) :: rest else e :: dinsert rest k v

/-- `parse_file` (lines 62-108) over the member-definition nodes found
under the record's compounddef, in document order.  The fold carries the
`sourcefile` variable and the `definitions` dict.  A member whose kind is
"function" with static "yes" is skipped entirely (`continue`, lines
73-75); otherwise the sourcefile is taken from the first considered
member carrying a location while `sourcefile` is still falsy (lines
90-93), and the resolved identifier is assigned the documented flag
(line 103).  If `sourcefile` ends falsy it falls back to the input path
(lines 105-106). -/
def parse_file (fullpath : String) (members : List Member) : String × Defs :=
  let st := members.foldl
    (fun (acc : Option String × Defs) m =>
      if skipB m then acc
      else
        ((if strFalsey acc.1 then m.location else acc.1),
         dinsert acc.2 (resolveName m) (documentedB m)))
    (none, [])
  (match st.1 with
   | some s => if s == "" then fullpath else s
   | none => fullpath,
   st.2)

/-- One `compound` entry of index.xml together with the member nodes of
the detail document its refid designates (the XML reading of
`parse_file(file_fp)` is modelled by carrying the members here). -/
structure Entry where
  kind : String
  refid : String
  members : List Member

/-- Bool test: the first list is a prefix of the second. -/
def listStarts : List Char → List Char → Bool
  | [], _ => true
  | _ :: _, [] => false
  | a :: as, b :: bs => a == b && listStarts as bs

/-- Bool test: the first list occurs as a contiguous sublist of the
second (an empty needle always matches). -/
def listContains (n : List Char) : List Char → Bool
  | [] => n.isEmpty
  | b :: bs => listStarts n (b :: bs) || listContains n bs

/-- Python `needle in haystack` on strings: case-sensitive substring
containment. -/
def pyIn (needle haystack : String) : Bool := listContains needle.data haystack.data

/-- Python `a <= b` on strings: lexicographic comparison of code points. -/
def clistLe : List Char → List Char → Bool
  | [], _ => true
  | _ :: _, [] => false
  | a :: as, b :: bs =>
    if a.toNat < b.toNat then true
    else if a.toNat = b.toNat then clistLe as bs
    else false

/-- Python string `<=` lifted to `String`. -/
def pyLe (a b : String) : Bool := clistLe a.data b.data

/-- `pyLe` as a relation, for sorting. -/
def pyLeP (a b : String) : Prop := pyLe a b = true

instance : DecidableRel pyLeP := fun a b => inferInstanceAs (Decidable (pyLe a b = true))

/-- The `files` dict update of `parse` (lines 126-129): append the new
symbol table to an existing path's list, else add the path with a
singleton list. -/
def finsert : Files → String → Defs → Files
  | [], k, d => [(k, [d])]
  | (k', ds) :: rest, k, d =>
    if k' == k then (k', ds ++ [d]) :: rest else (k', ds) :: finsert rest k d

/-- `parse` (lines 111-131) over the compound entries of index.xml, in
document order.  `entry.get('kind') in ('dir')` is a Python substring
test of the kind against the string "dir" (`('dir')` is not a tuple).
A record whose symbol table is empty is never added to the table (line
125, `if tmp[1]:`).  The filesystem path join is modelled with "/". -/
def parse (path : String) (entries : List Entry) : Files :=
  entries.foldl
    (fun files e =>
      if pyIn e.kind "dir" then files
      else
        let tmp := parse_file (path ++ "/" ++ e.refid ++ ".xml") e.members
        if tmp.2.isEmpty then files else finsert files tmp.1 tmp.2)
    []

/-- `files[f]` as read inside `report`; `report` only looks up keys that
are present, where the default is never taken. -/
def defsOf (files : Files) (f : String) : List Defs := (List.lookup f files).getD []

/-- `doc_yes = len([d[k] for d in defs for k in d if d[k]])` (lines 140,
169): the number of documented entries across all of a path's symbol
tables. -/
def defsYes (ds : List Defs) : Nat :=
  ((ds.map (fun d => d.filter (fun e => e.2))).flatten).length

/-- `doc_no` (lines 141, 170): the number of undocumented entries across
all of a path's symbol tables. -/
def defsNo (ds : List Defs) : Nat :=
  ((ds.map (fun d => d.filter (fun e => !e.2))).flatten).length

/-- `get_coverage` (lines 135-142).  The division is Python float
division, embedded in `ℚ`.  When `defs` is a non-empty list of empty
tables the Python code raises ZeroDivisionError while the rational
division returns the junk value 0; `parse` never produces such a table
(see the C10 theorem), so the two agree on every table `report` receives
in the program. -/
def get_coverage (files : Files) (f : String) : ℚ :=
  let defs := defsOf files f
  if defs.isEmpty then 100
  else ((defsYes defs : ℚ) * 100) / ((defsYes defs : ℚ) + (defsNo defs : ℚ))

/-- The order `file_cmp` induces (lines 144-148): coverage of `a` at most
coverage of `b`. -/
def covLe (files : Files) (a b : String) : Prop :=
  get_coverage files a ≤ get_coverage files b

instance (files : Files) : DecidableRel (covLe files) := fun _ _ =>
  inferInstanceAs (Decidable (_ ≤ _))

instance (files : Files) : IsTotal String (covLe files) :=
  ⟨fun _ _ => le_total _ _⟩

instance (files : Files) : IsTrans String (covLe files) :=
  ⟨fun _ _ _ => le_trans⟩

/-- `files_sorted` (lines 151-152): the keys sorted ascending by coverage
and then reversed.  CPython's sort is stable; `insertionSort` with the
non-strict relation `covLe` places equal-coverage keys in the same
(original) relative order, matching it. -/
def files_sorted (files : Files) : List String :=
  (List.insertionSort (covLe files) (files.map Prod.fst)).reverse

/-- The exclusion test of the report loop (lines 157-163): some exclusion
substring occurs in the path. -/
def excludedB (excl : List String) (f : String) : Bool :=
  excl.any (fun e => pyIn e f)

/-- The two `continue` guards of the report loop (lines 157-167): a path
produces a report line iff it is not excluded and its record list is
non-empty. -/
def includedB (files : Files) (excl : List String) (f : String) : Bool :=
  !excludedB excl f && !(defsOf files f).isEmpty

/-- The paths that produce report lines, in print order. -/
def includedOrder (files : Files) (excl : List String) : List String :=
  (files_sorted files).filter (includedB files excl)

/-- `total_yes` after the loop (lines 154, 173). -/
def totalYes (files : Files) (excl : List String) : Nat :=
  ((includedOrder files excl).map (fun f => defsYes (defsOf files f))).sum

/-- `total_no` after the loop (lines 155, 174). -/
def totalNo (files : Files) (excl : List String) : Nat :=
  ((includedOrder files excl).map (fun f => defsNo (defsOf files f))).sum

/-- `total_all` (line 184). -/
def totalAll (files : Files) (excl : List String) : Nat :=
  totalYes files excl + totalNo files excl

/-- `total_per = total_yes * 100 / total_all` (line 185).  In Python 3
`/` on integers is true division producing a float; it is embedded as
rational division.  Only meaningful when `totalAll` is non-zero (the
code raises ZeroDivisionError otherwise; see `reportVerdict`). -/
def totalPercent (files : Files) (excl : List String) : ℚ :=
  ((totalYes files excl : ℚ) * 100) / (totalAll files excl : ℚ)

/-- Modelled from the spec, for comparison with `totalPercent`: the
grand-total percentage computed with integer division semantics
truncating toward zero (`totalDocumented * 100 / (totalDocumented +
totalUndocumented)` on naturals). -/
def totalPercentSpec (ty tn : Nat) : Nat := ty * 100 / (ty + tn)

/-- The undocumented identifiers printed beneath a path's line (lines
179-182): the keys with a false flag of one symbol table... -/
def undocKeys (d : Defs) : List String := (d.filter (fun e => !e.2)).map Prod.fst

/-- ...concatenated across the path's symbol tables and sorted by Python
`list.sort` (lexicographic, stable). -/
def undocOf (ds : List Defs) : List String :=
  List.insertionSort pyLeP ((ds.map undocKeys).flatten)

/-- The value `report` returns (lines 184-188):
`(threshold - total_per, 0)[total_per > threshold]`.  `none` encodes the
ZeroDivisionError raised at line 185 when `total_all` is zero. -/
def reportVerdict (files : Files) (excl : List String) (threshold : Int) : Option ℚ :=
  if totalAll files excl = 0 then none
  else some (if (threshold : ℚ) < totalPercent files excl then 0
             else (threshold : ℚ) - totalPercent files excl)

/-- The exit code of `FATAL` (line 59): `(1, 0)[ns.noerror]`. -/
def fatalExit (noerror : Bool) : Nat := if noerror then 0 else 1

/-- CPython `sys.exit(err)`: an integer exits with that code modulo 256;
any other object (such as the float deficit) is printed and the process
exits 1. -/
def sysExitCode (err : ℚ) : Nat :=
  if err.den = 1 then (err.num.emod 256).toNat else 1

/-- The process exit code of a run of `main` (lines 191-226), as a
function of the `--noerror` flag, whether index.xml exists, and the
result of `report` (`none` = the uncaught ZeroDivisionError, which makes
CPython exit 1).  A missing index hits `FATAL` before `report` runs
(lines 113-114); otherwise `main` returns normally (exit 0) when
`--noerror` is set and calls `sys.exit(err)` when it is not (lines
222-226). -/
def mainExit (noerror : Bool) (indexExists : Bool) (reportResult : Option ℚ) : Nat :=
  if !indexExists then fatalExit noerror
  else
    match reportResult with
    | none => 1
    | some err => if noerror then 0 else sysExitCode err

/-! Order properties of the Python string comparison, needed for the
sortedness of the identifier listing. -/

theorem clistLe_total (a b : List Char) : clistLe a b = true ∨ clistLe b a = true := by
  induction a generalizing b with
  | nil => exact Or.inl rfl
  | cons x xs ih =>
    cases b with
    | nil => exact Or.inr rfl
    | cons y ys =>
      rcases Nat.lt_trichotomy x.toNat y.toNat with h | h | h
      · left; simp [clistLe, h]
      · rcases ih ys with h2 | h2
        · left; simp [clistLe, h, h2]
        · right; simp [clistLe, ← h, h2]
      · right; simp [clistLe, h]

theorem clistLe_cons_iff (x y : Char) (xs ys : List Char) :
    clistLe (x :: xs) (y :: ys) = true ↔
      x.toNat < y.toNat ∨ (x.toNat = y.toNat ∧ clistLe xs ys = true) := by
  by_cases h1 : x.toNat < y.toNat
  · simp [clistLe, h1]
  · by_cases h2 : x.toNat = y.toNat
    · simp [clistLe, h1, h2]
    · simp [clistLe, h1, h2]

theorem clistLe_trans (a b c : List Char) (hab : clistLe a b = true)
    (hbc : clistLe b c = true) : clistLe a c = true := by
  induction a generalizing b c with
  | nil => rfl
  | cons x xs ih =>
    cases b with
    | nil => simp [clistLe] at hab
    | cons y ys =>
      cases c with
      | nil => simp [clistLe] at hbc
      | cons z zs =>
        rw [clistLe_cons_iff] at hab hbc ⊢
        rcases hab with hab | ⟨hab, hab2⟩
        · rcases hbc with hbc | ⟨hbc, _⟩
          · exact Or.inl (Nat.lt_trans hab hbc)
          · exact Or.inl (hbc ▸ hab)
        · rcases hbc with hbc | ⟨hbc, hbc2⟩
          · exact Or.inl (hab ▸ hbc)
          · exact Or.inr ⟨hab.trans hbc, ih ys zs hab2 hbc2⟩

instance : IsTotal String pyLeP :=
  ⟨fun a b => clistLe_total a.data b.data⟩

instance : IsTrans String pyLeP :=
  ⟨fun a b c => clistLe_trans a.data b.data c.data⟩

/-! General helper lemmas about the embedded operations. -/

/-- The defs component of the parse_file fold ignores the sourcefile
component and equals a fold over the members that pass the
documentability filter. -/
theorem parse_file_loop_defs (ms : List Member) (sf : Option String) (d : Defs) :
    (ms.foldl
      (fun (acc : Option String × Defs) m =>
        if skipB m then acc
        else
          ((if strFalsey acc.1 then m.location else acc.1),
           dinsert acc.2 (resolveName m) (documentedB m)))
      (sf, d)).2 =
    (ms.filter (fun m => !skipB m)).foldl
      (fun d m => dinsert d (resolveName m) (documentedB m)) d := by
  induction ms generalizing sf d with
  | nil => rfl
  | cons m ms ih =>
    cases h : skipB m
    · simp [List.filter_cons, h, ih]
    · simp [List.filter_cons, h, ih]

/-- Looking up a key other than the erased one is unchanged by erasing
all pairs carrying the erased key. -/
theorem lookup_filter_ne (f g : String) (hg : g ≠ f) (l : Files) :
    List.lookup g (l.filter (fun pr => pr.1 != f)) = List.lookup g l := by
  induction l with
  | nil => rfl
  | cons p rest ih =>
    obtain ⟨k, v⟩ := p
    by_cases hk : k = f
    · subst hk
      have h1 : (k != k) = false := by simp
      have h2 : (g == k) = false := beq_eq_false_iff_ne.mpr hg
      simp [List.filter_cons, h1, List.lookup, h2, ih]
    · have h1 : (k != f) = true := bne_iff_ne.mpr hk
      by_cases hg2 : g = k
      · subst hg2
        simp [List.filter_cons, h1, List.lookup]
      · have h2 : (g == k) = false := beq_eq_false_iff_ne.mpr hg2
        simp [List.filter_cons, h1, List.lookup, h2, ih]

/-- A successful lookup produces a member of the association list. -/
theorem lookup_mem {g : String} {ds : List Defs} {l : Files}
    (h : List.lookup g l = some ds) : (g, ds) ∈ l := by
  induction l with
  | nil => simp [List.lookup] at h
  | cons p rest ih =>
    obtain ⟨k, v⟩ := p
    by_cases hk : (g == k) = true
    · have hgk : g = k := eq_of_beq hk
      simp only [List.lookup, hk] at h
      obtain rfl : v = ds := Option.some.inj h
      subst hgk
      exact List.mem_cons_self _ _
    · have hk2 : (g == k) = false := by simpa using hk
      simp only [List.lookup, hk2] at h
      exact List.mem_cons_of_mem _ (ih h)

theorem defsYes_cons (d : Defs) (ds : List Defs) :
    defsYes (d :: ds) = (d.filter (fun e => e.2)).length + defsYes ds := by
  simp [defsYes]

theorem defsNo_cons (d : Defs) (ds : List Defs) :
    defsNo (d :: ds) = (d.filter (fun e => !e.2)).length + defsNo ds := by
  simp [defsNo]

/-- The documented and undocumented entries of one symbol table
partition it. -/
theorem filter_yes_no_length (d : Defs) :
    (d.filter (fun e => e.2)).length + (d.filter (fun e => !e.2)).length = d.length := by
  induction d with
  | nil => rfl
  | cons e rest ih =>
    by_cases he : e.2 <;> simp [List.filter_cons, he] <;> omega

/-! Claim C5. -/

/-- C5: a member-definition node is excluded from the symbol mapping iff
its kind is "function" and its static attribute is "yes"; every other
member is folded into the mapping (assigned its resolved identifier and
documented flag), in document order. -/
theorem C5_static_function_filter (fullpath : String) (ms : List Member) :
    (parse_file fullpath ms).2 =
      (ms.filter (fun m => !(m.kind == some "function" && m.static == some "yes"))).foldl
        (fun d m => dinsert d (resolveName m) (documentedB m)) [] := by
  have h := parse_file_loop_defs ms none []
  exact h

/-! Claim C6. -/

/-- C6: the identifier stored for a considered member is its definition
signature when that element is present, else its bare name when present,
else its internal id attribute; in every case the member gets an
identifier. -/
theorem C6_identifier_resolution (m : Member) :
    (∀ s, m.definition = some s → resolveName m = s) ∧
    (m.definition = none → ∀ s, m.name = some s → resolveName m = s) ∧
    (m.definition = none → m.name = none → resolveName m = m.id) := by
  refine ⟨fun s hs => ?_, fun hd s hs => ?_, fun hd hn => ?_⟩ <;>
    simp [resolveName, *]

theorem C6_identifier_resolution_witness :
    resolveName ⟨some "function", some "no", true, false, false,
      some "int f(int)", some "f", "m_1", none⟩ = "int f(int)" ∧
    resolveName ⟨none, none, false, false, false, none, some "g", "m_2", none⟩ = "g" ∧
    resolveName ⟨none, none, false, false, false, none, none, "m_3", none⟩ = "m_3" :=
  ⟨(C6_identifier_resolution _).1 _ rfl,
   (C6_identifier_resolution _).2.1 rfl _ rfl,
   (C6_identifier_resolution _).2.2 rfl rfl⟩

/-! Claim C9. -/

/-- C9: with the noerror flag set, a run that computed a verdict exits 0
whatever the deficit was, and a run aborted by the missing-index FATAL
also exits 0 instead of 1. -/
theorem C9_noerror_exit (r : Option ℚ) (d : ℚ) :
    mainExit true true (some d) = 0 ∧ mainExit true false r = 0 := by
  exact ⟨rfl, rfl⟩

/-! Claim C3.  The code computes `total_yes * 100 / total_all` at line
185 with no guard: with an empty corpus `total_all` is 0 and Python
raises an unhandled ZeroDivisionError, which `reportVerdict` renders as
`none`. -/

/-- C3: on an empty corpus (zero documentable symbols across all
non-excluded files) the total percentage computation divides by zero,
so report does crash, contrary to the requirement. -/
theorem C3_empty_corpus_division_fault :
    totalAll ([] : Files) [] = 0 ∧ reportVerdict ([] : Files) [] 80 = none :=
  ⟨rfl, rfl⟩

/-! Claim C2.  Line 185 uses Python 3 `/`, which is true division
producing a float, not the truncating integer division the spec
requires; for 1 documented of 3 the value is 100/3 and the verdict
80 - 100/3, neither an integer. -/

/-- A files table with one path holding 1 documented and 2 undocumented
symbols. -/
def exampleOneThird : Files := [("f.c", [[("a", true), ("b", false), ("c", false)]])]

/-- C2: the grand-total percentage is computed with true division, not
integer division: at 1 documented of 3 total it is 100/3, not an
integer, and the verdict at threshold 80 is 80 - 100/3, not an integer,
while the spec's integer-division computation gives 33. -/
theorem C2_true_division_not_integer :
    totalPercent exampleOneThird [] = 100 / 3 ∧
    (¬ ∃ n : ℤ, totalPercent exampleOneThird [] = (n : ℚ)) ∧
    totalPercentSpec 1 2 = 33 ∧
    reportVerdict exampleOneThird [] 80 = some (80 - 100 / 3) ∧
    (¬ ∃ n : ℤ, ((80 : ℚ) - 100 / 3) = (n : ℚ)) := by
  have hy : totalYes exampleOneThird [] = 1 := by decide
  have hn : totalNo exampleOneThird [] = 2 := by decide
  have ha : totalAll exampleOneThird [] = 3 := by rw [totalAll, hy, hn]
  have hp : totalPercent exampleOneThird [] = 100 / 3 := by
    rw [totalPercent, ha, hy]
    norm_num
  refine ⟨hp, ?_, by norm_num [totalPercentSpec], ?_, ?_⟩
  · rintro ⟨n, h⟩
    rw [hp] at h
    have h3 : (100 : ℚ) = 3 * (n : ℚ) := by field_simp at h; linarith
    have h4 : (100 : ℤ) = 3 * n := by exact_mod_cast h3
    omega
  · rw [reportVerdict, ha, hp]
    rw [if_neg (by norm_num), if_neg (by norm_num)]
    norm_num
  · rintro ⟨n, h⟩
    have h3 : (140 : ℚ) = 3 * (n : ℚ) := by field_simp at h; linarith
    have h4 : (140 : ℤ) = 3 * n := by exact_mod_cast h3
    omega

/-! Claim C10: the structural invariant of the table `parse` builds. -/

/-- Invariant of the files table: every path maps to a non-empty list of
non-empty symbol tables. -/
def FilesWF (files : Files) : Prop :=
  ∀ pr ∈ files, pr.2 ≠ [] ∧ ∀ d ∈ pr.2, d ≠ []

theorem finsert_wf {files : Files} {k : String} {d : Defs}
    (hf : FilesWF files) (hd : d ≠ []) : FilesWF (finsert files k d) := by
  induction files with
  | nil =>
    intro pr hpr
    simp only [finsert, List.mem_singleton] at hpr
    subst hpr
    exact ⟨by simp, by simpa using hd⟩
  | cons p rest ih =>
    obtain ⟨k', ds⟩ := p
    have hp := hf (k', ds) (List.mem_cons_self _ _)
    have hrest : FilesWF rest := fun pr hpr => hf pr (List.mem_cons_of_mem _ hpr)
    by_cases hk : (k' == k) = true
    · intro pr hpr
      rw [finsert, if_pos hk] at hpr
      rcases List.mem_cons.mp hpr with hpr | hpr
      · subst hpr
        refine ⟨by simp, fun d' hd' => ?_⟩
        rcases List.mem_append.mp hd' with hd' | hd'
        · exact hp.2 d' hd'
        · simpa [List.mem_singleton.mp hd'] using hd
      · exact hrest pr hpr
    · intro pr hpr
      rw [finsert, if_neg hk] at hpr
      rcases List.mem_cons.mp hpr with hpr | hpr
      · subst hpr; exact hp
      · exact ih hrest pr hpr

theorem parse_loop_wf (path : String) (entries : List Entry) (files : Files)
    (hf : FilesWF files) :
    FilesWF (entries.foldl
      (fun files e =>
        if pyIn e.kind "dir" then files
        else
          let tmp := parse_file (path ++ "/" ++ e.refid ++ ".xml") e.members
          if tmp.2.isEmpty then files else finsert files tmp.1 tmp.2)
      files) := by
  induction entries generalizing files with
  | nil => exact hf
  | cons e es ih =>
    rw [List.foldl_cons]
    cases hdir : pyIn e.kind "dir"
    · cases hemp : (parse_file (path ++ "/" ++ e.refid ++ ".xml") e.members).2.isEmpty
      · have hne : (parse_file (path ++ "/" ++ e.refid ++ ".xml") e.members).2 ≠ [] := by
          intro h
          rw [h] at hemp
          simp at hemp
        simp only [hdir, hemp, if_false, Bool.false_eq_true]
        exact ih _ (finsert_wf hf hne)
      · simp only [hdir, hemp, if_false, if_true, Bool.false_eq_true]
        exact ih _ hf
    · simp only [hdir, if_true]
      exact ih _ hf

/-- The table built by `parse` satisfies the invariant. -/
theorem parse_wf (path : String) (entries : List Entry) : FilesWF (parse path entries) :=
  parse_loop_wf path entries [] (by intro pr hpr; simp at hpr)

/-- C10: every path in a table returned by parse maps to a non-empty
list of non-empty symbol tables (an empty extracted mapping is never
added), hence the per-path coverage denominator is positive and
get_coverage never takes its empty-list branch returning 100. -/
theorem C10_parse_table_invariant (path : String) (entries : List Entry)
    (f : String) (ds : List Defs)
    (h : List.lookup f (parse path entries) = some ds) :
    ds ≠ [] ∧ (∀ d ∈ ds, d ≠ []) ∧ 0 < defsYes ds + defsNo ds ∧
    get_coverage (parse path entries) f =
      ((defsYes ds : ℚ) * 100) / ((defsYes ds : ℚ) + (defsNo ds : ℚ)) := by
  obtain ⟨hne, hall⟩ := parse_wf path entries (f, ds) (lookup_mem h)
  have hpos : 0 < defsYes ds + defsNo ds := by
    cases ds with
    | nil => exact absurd rfl hne
    | cons d rest =>
      have hd : d ≠ [] := hall d (List.mem_cons_self _ _)
      have hlen : 0 < d.length := List.length_pos.mpr hd
      have hsplit := filter_yes_no_length d
      rw [defsYes_cons, defsNo_cons]
      omega
  refine ⟨hne, hall, hpos, ?_⟩
  have hdf : defsOf (parse path entries) f = ds := by rw [defsOf, h]; rfl
  have hemp : ds.isEmpty = false := by
    cases ds with
    | nil => exact absurd rfl hne
    | cons d rest => rfl
  rw [get_coverage, hdf, hemp]
  simp

/-- A one-entry index whose record holds one documented non-static
function located in a.c. -/
def exampleParseEntry : Entry :=
  ⟨"file", "r1",
   [⟨some "function", some "no", true, false, false,
     some "int f()", some "f", "m1", some "a.c"⟩]⟩

theorem C10_parse_table_invariant_witness :
    [[("int f()", true)]] ≠ ([] : List Defs) ∧
    (∀ d ∈ [[("int f()", true)]], d ≠ ([] : Defs)) ∧
    0 < defsYes [[("int f()", true)]] + defsNo [[("int f()", true)]] ∧
    get_coverage (parse "xml" [exampleParseEntry]) "a.c" =
      ((defsYes [[("int f()", true)]] : ℚ) * 100) /
        ((defsYes [[("int f()", true)]] : ℚ) + (defsNo [[("int f()", true)]] : ℚ)) :=
  C10_parse_table_invariant "xml" [exampleParseEntry] "a.c" [[("int f()", true)]] (by decide)

/-! Claim C7: excluded paths are absent from the report and contribute
nothing to the grand totals. -/

/-- The keys of the table with one path erased are the keys with that
path filtered out. -/
theorem keys_filter_ne (f : String) (l : Files) :
    (l.filter (fun pr => pr.1 != f)).map Prod.fst =
      (l.map Prod.fst).filter (fun g => g != f) := by
  induction l with
  | nil => rfl
  | cons p rest ih =>
    cases hp : (p.1 != f)
    · simp [List.filter_cons, hp, ih]
    · simp [List.filter_cons, hp, ih]

/-- The sum the report loop accumulates over the sorted included paths
equals the same sum over the unsorted included keys. -/
theorem included_sum_eq (files : Files) (excl : List String) (w : String → Nat) :
    ((includedOrder files excl).map w).sum =
      (((files.map Prod.fst).filter (includedB files excl)).map w).sum := by
  have hperm : (includedOrder files excl).Perm
      ((files.map Prod.fst).filter (includedB files excl)) := by
    unfold includedOrder files_sorted
    exact ((List.reverse_perm _).trans (List.perm_insertionSort _ _)).filter _
  exact (hperm.map _).sum_eq

/-- C7: a path containing an exclusion substring never appears among the
printed report lines, and erasing its entry from the table changes
neither grand total. -/
theorem C7_excluded_paths (files : Files) (excl : List String) (f e : String)
    (he : e ∈ excl) (hin : pyIn e f = true) :
    f ∉ includedOrder files excl ∧
    totalYes files excl = totalYes (files.filter (fun pr => pr.1 != f)) excl ∧
    totalNo files excl = totalNo (files.filter (fun pr => pr.1 != f)) excl := by
  have hex : excludedB excl f = true := by
    rw [excludedB, List.any_eq_true]
    exact ⟨e, he, hin⟩
  have hnotinc : includedB files excl f = false := by
    rw [includedB, hex]; rfl
  have hdefs : ∀ g, g ≠ f →
      defsOf (files.filter (fun pr => pr.1 != f)) g = defsOf files g := by
    intro g hg
    rw [defsOf, defsOf, lookup_filter_ne f g hg]
  have hinc : ∀ g, g ≠ f →
      includedB (files.filter (fun pr => pr.1 != f)) excl g = includedB files excl g := by
    intro g hg
    rw [includedB, includedB, hdefs g hg]
  have key : ∀ wL wR : String → Nat, (∀ g, g ≠ f → wL g = wR g) →
      (((files.map Prod.fst).filter (includedB files excl)).map wL).sum =
      ((((files.filter (fun pr => pr.1 != f)).map Prod.fst).filter
          (includedB (files.filter (fun pr => pr.1 != f)) excl)).map wR).sum := by
    intro wL wR hw
    rw [keys_filter_ne f files, List.filter_filter]
    have hpred : ∀ g ∈ files.map Prod.fst, includedB files excl g =
        (includedB (files.filter (fun pr => pr.1 != f)) excl g && (g != f)) := by
      intro g _
      by_cases hg : g = f
      · subst hg
        rw [hnotinc]
        simp
      · rw [hinc g hg]
        have : (g != f) = true := bne_iff_ne.mpr hg
        rw [this, Bool.and_true]
    rw [List.filter_congr hpred]
    refine congrArg List.sum (List.map_congr_left ?_)
    intro g hg
    rw [List.mem_filter] at hg
    have hgf : g ≠ f := by
      have := (Bool.and_eq_true _ _).mp hg.2
      exact bne_iff_ne.mp this.2
    exact hw g hgf
  refine ⟨?_, ?_, ?_⟩
  · intro hmem
    rw [includedOrder, List.mem_filter, hnotinc] at hmem
    exact absurd hmem.2 (by simp)
  · rw [totalYes, totalYes, included_sum_eq, included_sum_eq]
    exact key _ _ (fun g hg => by rw [hdefs g hg])
  · rw [totalNo, totalNo, included_sum_eq, included_sum_eq]
    exact key _ _ (fun g hg => by rw [hdefs g hg])

/-- A table with one ordinary path and one path under an excluded
directory. -/
def exampleExcluded : Files :=
  [("src/x.c", [[("a", true)]]), ("gen/y.c", [[("b", false)]])]

theorem C7_excluded_paths_witness :
    "gen/y.c" ∉ includedOrder exampleExcluded ["gen"] ∧
    totalYes exampleExcluded ["gen"] =
      totalYes (exampleExcluded.filter (fun pr => pr.1 != "gen/y.c")) ["gen"] ∧
    totalNo exampleExcluded ["gen"] =
      totalNo (exampleExcluded.filter (fun pr => pr.1 != "gen/y.c")) ["gen"] :=
  C7_excluded_paths exampleExcluded ["gen"] "gen/y.c" "gen" (by decide) (by decide)

/-! Claim C4: the printed undocumented-identifier listing. -/

/-- Every identifier in the undocumented listing of one symbol table is
one of its keys. -/
theorem undocKeys_subset (d : Defs) : ∀ s ∈ undocKeys d, s ∈ d.map Prod.fst := by
  intro s hs
  rw [undocKeys] at hs
  obtain ⟨e, he, rfl⟩ := List.mem_map.mp hs
  exact List.mem_map.mpr ⟨e, List.mem_of_mem_filter he, rfl⟩

/-- In one symbol table with unique keys, an identifier occurs in the
undocumented listing once if the table marks it undocumented, else not
at all. -/
theorem count_undocKeys (d : Defs) (hd : (d.map Prod.fst).Nodup) (s : String) :
    (undocKeys d).count s = if d.any (fun e => e.1 == s && !e.2) then 1 else 0 := by
  induction d with
  | nil => simp [undocKeys]
  | cons e rest ih =>
    rw [List.map_cons, List.nodup_cons] at hd
    obtain ⟨hnotin, hnd⟩ := hd
    cases hflag : e.2
    · by_cases hkey : e.1 = s
      · subst hkey
        have hkeys : undocKeys (e :: rest) = e.1 :: undocKeys rest := by
          simp [undocKeys, List.filter_cons, hflag]
        have hzero : (undocKeys rest).count e.1 = 0 := by
          rw [List.count_eq_zero]
          intro hmem
          exact hnotin (undocKeys_subset rest e.1 hmem)
        have hany : (e :: rest).any (fun x => x.1 == e.1 && !x.2) = true := by
          simp [List.any_cons, hflag]
        rw [hkeys, List.count_cons_self, hzero, hany]
        simp
      · have hkeys : undocKeys (e :: rest) = e.1 :: undocKeys rest := by
          simp [undocKeys, List.filter_cons, hflag]
        have hcount : (e.1 :: undocKeys rest).count s = (undocKeys rest).count s :=
          List.count_cons_of_ne (fun h => hkey h.symm) _
        have hpe : (e.1 == s && !e.2) = false := by
          simp [hkey]
        rw [hkeys, hcount, List.any_cons, hpe, Bool.false_or]
        exact ih hnd
    · have hkeys : undocKeys (e :: rest) = undocKeys rest := by
        simp [undocKeys, List.filter_cons, hflag]
      have hpe : (e.1 == s && !e.2) = false := by
        simp [hflag]
      rw [hkeys, List.any_cons, hpe, Bool.false_or]
      exact ih hnd

/-- Summing an indicator over a list counts the satisfying elements. -/
theorem sum_map_ite_count {α : Type} (l : List α) (p : α → Bool) :
    (l.map (fun a => if p a then 1 else 0)).sum = l.countP p := by
  induction l with
  | nil => rfl
  | cons a l ih =>
    cases h : p a <;> simp [List.countP_cons, h, ih] <;> omega

/-- A path to which two records contributed, both leaving the same
identifier undocumented. -/
def exampleDupUndoc : Files := [("p.c", [[("a", false)], [("a", false)]])]

/-- C4 is refuted as stated: with two contributing records that both
flag "a" undocumented, the listing prints "a" twice, not exactly once. -/
theorem C4_counterexample :
    undocOf (defsOf exampleDupUndoc "p.c") = ["a", "a"] ∧
    ¬ (undocOf (defsOf exampleDupUndoc "p.c")).count "a" = 1 := by
  exact ⟨by decide, by decide⟩

/-- C4 (amended): for every included path the printed identifiers are
sorted by the Python string order, and an identifier appears once per
contributing record in which it is flagged undocumented (so it can
repeat across records; within one record it appears at most once). -/
theorem C4_undoc_listing (files : Files) (f : String)
    (hnd : ∀ d ∈ defsOf files f, (d.map Prod.fst).Nodup) :
    List.Sorted pyLeP (undocOf (defsOf files f)) ∧
    ∀ s, (undocOf (defsOf files f)).count s =
      (defsOf files f).countP (fun d => d.any (fun e => e.1 == s && !e.2)) := by
  constructor
  · exact List.sorted_insertionSort _ _
  · intro s
    have h1 := (List.perm_insertionSort pyLeP
      ((defsOf files f).map undocKeys).flatten).count_eq s
    rw [undocOf, h1, List.count_flatten, List.map_map]
    have h2 : ∀ d ∈ defsOf files f, (List.count s ∘ undocKeys) d =
        if d.any (fun e => e.1 == s && !e.2) then 1 else 0 :=
      fun d hd => count_undocKeys d (hnd d hd) s
    rw [List.map_congr_left h2, sum_map_ite_count]

/-- A path with two contributing records: the first leaves b and a
undocumented, the second leaves a undocumented and c documented. -/
def exampleMultiRecord : Files :=
  [("q.c", [[("b", false), ("a", false)], [("a", false), ("c", true)]])]

theorem C4_undoc_listing_witness :
    (undocOf (defsOf exampleMultiRecord "q.c")).count "a" =
      (defsOf exampleMultiRecord "q.c").countP
        (fun d => d.any (fun e => e.1 == "a" && !e.2)) :=
  (C4_undoc_listing exampleMultiRecord "q.c" (by decide)).2 "a"

/-! Claim C8: all symbols documented. -/

/-- A symbol-table list whose entries are all documented has no
undocumented entries. -/
theorem defsNo_eq_zero (ds : List Defs) (h : ∀ d ∈ ds, ∀ e ∈ d, e.2 = true) :
    defsNo ds = 0 := by
  induction ds with
  | nil => rfl
  | cons d rest ih =>
    rw [defsNo_cons]
    have h1 : d.filter (fun e => !e.2) = [] := by
      rw [List.filter_eq_nil_iff]
      intro e he
      simp [h d (List.mem_cons_self _ _) e he]
    rw [h1]
    simp only [List.length_nil, Nat.zero_add]
    exact ih (fun d' hd' => h d' (List.mem_cons_of_mem _ hd'))

/-- C8 is refuted as stated: the empty corpus satisfies the premise
(every documentable symbol is documented, vacuously) with threshold
100 ≤ 100, yet the code raises ZeroDivisionError instead of producing
verdict 0. -/
theorem C8_counterexample :
    reportVerdict ([] : Files) [] 90 = none ∧
    reportVerdict ([] : Files) [] 90 ≠ some 0 := by
  refine ⟨rfl, ?_⟩
  intro h
  simp [reportVerdict, totalAll, totalYes, totalNo, includedOrder, files_sorted] at h

/-- C8 (amended): for every input with at least one included
documentable symbol in which every documentable symbol is documented,
the aggregate coverage is 100 and the verdict is 0 for every threshold
at most 100, including threshold = 100 where the strict comparison of
total against threshold is false and the verdict is the difference
100 - 100. -/
theorem C8_all_documented (files : Files) (excl : List String) (threshold : ℤ)
    (hall : ∀ pr ∈ files, ∀ d ∈ pr.2, ∀ e ∈ d, e.2 = true)
    (hpos : 0 < totalAll files excl) (ht : threshold ≤ 100) :
    totalPercent files excl = 100 ∧ reportVerdict files excl threshold = some 0 := by
  have hno : totalNo files excl = 0 := by
    rw [totalNo]
    apply List.sum_eq_zero
    intro x hx
    obtain ⟨g, _, rfl⟩ := List.mem_map.mp hx
    apply defsNo_eq_zero
    intro d hd e he
    rw [defsOf] at hd
    cases hlook : List.lookup g files with
    | none => rw [hlook] at hd; simp at hd
    | some ds =>
      rw [hlook] at hd
      exact hall (g, ds) (lookup_mem hlook) d hd e he
  have hallyes : totalAll files excl = totalYes files excl := by
    rw [totalAll, hno]
    omega
  have hyespos : 0 < totalYes files excl := by omega
  have hyne : ((totalYes files excl : ℚ)) ≠ 0 := by
    exact_mod_cast Nat.pos_iff_ne_zero.mp hyespos
  have hp100 : totalPercent files excl = 100 := by
    rw [totalPercent, hallyes, mul_comm, mul_div_assoc, div_self hyne, mul_one]
  have hne0 : ¬ totalAll files excl = 0 := by omega
  refine ⟨hp100, ?_⟩
  rw [reportVerdict, if_neg hne0, hp100]
  by_cases hlt : (threshold : ℚ) < 100
  · rw [if_pos hlt]
  · have h100 : (threshold : ℚ) = 100 := by
      have : (threshold : ℚ) ≤ 100 := by exact_mod_cast ht
      linarith [not_lt.mp hlt]
    rw [if_neg hlt, h100]
    norm_num

/-- A fully documented one-path table. -/
def exampleAllDocumented : Files := [("d.c", [[("x", true)]])]

theorem C8_all_documented_witness :
    totalPercent exampleAllDocumented [] = 100 ∧
    reportVerdict exampleAllDocumented [] 100 = some 0 :=
  C8_all_documented exampleAllDocumented [] 100 (by decide) (by decide) (by decide)

/-! Claim C1: the order of the report lines.  The code sorts the keys
ascending by coverage and then reverses the list (line 152), so the
printed order is descending, not ascending. -/

/-- C1 (amended): the report lists the included source-file paths in
descending order of per-path coverage (highest coverage first): along
the print order the coverage of a later path never exceeds that of an
earlier one. -/
theorem C1_descending_order (files : Files) (excl : List String) :
    List.Pairwise (fun a b => get_coverage files b ≤ get_coverage files a)
      (includedOrder files excl) := by
  have hs : List.Pairwise (covLe files)
      (List.insertionSort (covLe files) (files.map Prod.fst)) :=
    List.sorted_insertionSort _ _
  have hr : List.Pairwise (fun a b => get_coverage files b ≤ get_coverage files a)
      (files_sorted files) := by
    rw [files_sorted]
    exact List.pairwise_reverse.mpr hs
  rw [includedOrder]
  exact List.Pairwise.sublist (List.filter_sublist _) hr

/-- Three paths with pairwise distinct coverages 10, 90 and 50
percent. -/
def exampleThreeCov : Files :=
  [("pa", [[("a1", true), ("a2", false), ("a3", false), ("a4", false), ("a5", false),
            ("a6", false), ("a7", false), ("a8", false), ("a9", false), ("a10", false)]]),
   ("pb", [[("b1", true), ("b2", true), ("b3", true), ("b4", true), ("b5", true),
            ("b6", true), ("b7", true), ("b8", true), ("b9", true), ("b10", false)]]),
   ("pc", [[("c1", true), ("c2", false)]])]

/-- C1 is refuted as stated: for coverages 10, 90, 50 the report order
is 90, 50, 10 (descending), not the claimed 10, 50, 90. -/
theorem C1_counterexample :
    includedOrder exampleThreeCov [] = ["pb", "pc", "pa"] ∧
    includedOrder exampleThreeCov [] ≠ ["pa", "pc", "pb"] ∧
    get_coverage exampleThreeCov "pa" = 10 ∧
    get_coverage exampleThreeCov "pc" = 50 ∧
    get_coverage exampleThreeCov "pb" = 90 := by
  have hya : defsYes (defsOf exampleThreeCov "pa") = 1 := by decide
  have hna : defsNo (defsOf exampleThreeCov "pa") = 9 := by decide
  have hea : (defsOf exampleThreeCov "pa").isEmpty = false := by decide
  have hyb : defsYes (defsOf exampleThreeCov "pb") = 9 := by decide
  have hnb : defsNo (defsOf exampleThreeCov "pb") = 1 := by decide
  have heb : (defsOf exampleThreeCov "pb").isEmpty = false := by decide
  have hyc : defsYes (defsOf exampleThreeCov "pc") = 1 := by decide
  have hnc : defsNo (defsOf exampleThreeCov "pc") = 1 := by decide
  have hec : (defsOf exampleThreeCov "pc").isEmpty = false := by decide
  have ca : get_coverage exampleThreeCov "pa" = 10 := by
    rw [get_coverage, hea, hya, hna]
    norm_num
  have cb : get_coverage exampleThreeCov "pb" = 90 := by
    rw [get_coverage, heb, hyb, hnb]
    norm_num
  have cc : get_coverage exampleThreeCov "pc" = 50 := by
    rw [get_coverage, hec, hyc, hnc]
    norm_num
  have hbc : ¬ covLe exampleThreeCov "pb" "pc" := by
    rw [covLe, cb, cc]
    norm_num
  have hac : covLe exampleThreeCov "pa" "pc" := by
    rw [covLe, ca, cc]
    norm_num
  have h1 : List.orderedInsert (covLe exampleThreeCov) "pc" [] = ["pc"] := rfl
  have h2 : List.orderedInsert (covLe exampleThreeCov) "pb" ["pc"] = ["pc", "pb"] := by
    rw [List.orderedInsert, if_neg hbc, List.orderedInsert]
  have h3 : List.orderedInsert (covLe exampleThreeCov) "pa" ["pc", "pb"] =
      ["pa", "pc", "pb"] := by
    rw [List.orderedInsert, if_pos hac]
  have hkeys : exampleThreeCov.map Prod.fst = ["pa", "pb", "pc"] := rfl
  have hsort : List.insertionSort (covLe exampleThreeCov) ["pa", "pb", "pc"] =
      ["pa", "pc", "pb"] := by
    rw [List.insertionSort, List.insertionSort, List.insertionSort, List.insertionSort,
      h1, h2, h3]
  have hord : includedOrder exampleThreeCov [] = ["pb", "pc", "pa"] := by
    rw [includedOrder, files_sorted, hkeys, hsort]
    decide
  refine ⟨hord, ?_, ca, cc, cb⟩
  rw [hord]
  decide

end DoxyCoverage
